import Mathlib

/-!
Shallow embedding of the SyteScan progress/matching engine.

Sources embedded:
- `src/backend/app/services/progress_service.py` (ProgressService):
  `_calculate_requirement_matches`, `_calculate_completion_percentage`,
  `_generate_detection_summary`, `calculate_project_progress`.
- `src/backend/app/services/detection_service.py` (DetectionService):
  `_objects_match`, `filter_relevant_objects`.
- `src/backend/app/api/progress.py`: `get_project_progress`.

Modelling conventions: Python floats are modelled as exact rationals (ℚ);
Python `round` is round-half-to-even on the exact value; `str.lower` is
modelled on its ASCII fragment (all object names in this code base are
ASCII); the database is modelled as a lookup function from project id to
an optional project record.
-/

namespace SyteScan

/-- Detection record (`app/models/project.py`): an observed object with a
confidence score. Confidence is modelled as an exact rational. -/
structure Detection where
  object_name : String
  confidence : ℚ
deriving DecidableEq, Repr

/-- Schema `RequirementMatch` (`app/schemas/project.py`). -/
structure RequirementMatch where
  requirement : String
  detected : Bool
  confidence : Option ℚ
  count : ℕ
deriving DecidableEq, Repr

/-- Schema `DetectionSummary` (`app/schemas/project.py`). -/
structure DetectionSummary where
  total_objects_detected : ℕ
  unique_objects : List String
  average_confidence : ℚ
deriving DecidableEq, Repr

/-- Schema `ProgressResponse` (`app/schemas/project.py`). -/
structure ProgressResponse where
  project_id : String
  completion_percentage : ℚ
  requirement_matches : List RequirementMatch
  detection_summary : DetectionSummary
deriving DecidableEq, Repr

/-- Python `str.lower()` on the ASCII fragment used by this code base:
lowercase every character (Char.toLower lowers exactly the ASCII range). -/
def pyLower (s : String) : String := ⟨s.data.map Char.toLower⟩

/-- The ASCII whitespace characters stripped by Python `str.strip()`. -/
def pyIsSpace (c : Char) : Bool :=
  c == ' ' || c == '\t' || c == '\n' || c == '\r' || c.toNat == 11 || c.toNat == 12

/-- Python `str.strip()`: remove leading and trailing whitespace. -/
def pyStrip (s : String) : String :=
  ⟨((s.data.dropWhile pyIsSpace).reverse.dropWhile pyIsSpace).reverse⟩

/-- Whether the first character list is a prefix of the second
(char-by-char comparison). -/
def isPre : List Char → List Char → Bool
  | [], _ => true
  | _ :: _, [] => false
  | a :: as, b :: bs => a == b && isPre as bs

/-- Whether `sub` occurs as a contiguous sublist of the second argument. -/
def isSubList (sub : List Char) : List Char → Bool
  | [] => isPre sub []
  | c :: rest => isPre sub (c :: rest) || isSubList sub rest

/-- Python's substring test `sub in s` on strings. -/
def pyIn (sub s : String) : Bool := isSubList sub.data s.data

/-- The `synonyms` dictionary literal inside
`DetectionService._objects_match`, in insertion order: each entry maps a
canonical name to its group of interchangeable names. -/
def synonyms : List (String × List String) :=
  [("sofa", ["couch", "sofa"]),
   ("couch", ["couch", "sofa"]),
   ("tv", ["tv", "television"]),
   ("television", ["tv", "television"]),
   ("dining table", ["table", "dining table"]),
   ("table", ["table", "dining table"]),
   ("chair", ["chair", "seat"]),
   ("seat", ["chair", "seat"]),
   ("bed", ["bed", "bedroom"]),
   ("light", ["lamp", "light"]),
   ("lamp", ["lamp", "light"]),
   ("fan", ["fan", "ceiling fan"]),
   ("window", ["window"])]

/-- Embeds `DetectionService._objects_match`: direct equality, then synonym-group
membership over `synonyms.values()`, then Python substring containment
either way, else `False`. -/
def objects_match (detected_name required_name : String) : Bool :=
  if detected_name = required_name then true
  else if synonyms.any
      (fun g => decide (detected_name ∈ g.2 ∧ required_name ∈ g.2)) then true
  else if pyIn required_name detected_name || pyIn detected_name required_name then true
  else false

/-- Embeds `DetectionService.filter_relevant_objects`: keep the detections whose
name matches some requirement after the requirement is lowercased and
stripped (the detection name is used as stored). -/
def filter_relevant_objects (detections : List Detection)
    (requirements : List String) : List Detection :=
  let normalized_requirements := requirements.map (fun req => pyStrip (pyLower req))
  detections.filter
    (fun d => normalized_requirements.any (fun req => objects_match d.object_name req))

/-- One step of the `defaultdict(list)` grouping loop: append confidence
`c` to the entry for `key`, creating the entry at the end if absent. -/
def groupInsert (g : List (String × List ℚ)) (key : String) (c : ℚ) :
    List (String × List ℚ) :=
  match g with
  | [] => [(key, [c])]
  | (k, cs) :: rest =>
    if k = key then (k, cs ++ [c]) :: rest
    else (k, cs) :: groupInsert rest key c

/-- The `detection_groups` defaultdict of
`ProgressService._calculate_requirement_matches`: detections grouped by
lowercased object name, confidences kept in input order. -/
def detection_groups (detections : List Detection) : List (String × List ℚ) :=
  detections.foldl
    (fun g d => groupInsert g (pyLower d.object_name) d.confidence) []

/-- Python dict lookup on the association list. -/
def lookupGroup (key : String) : List (String × List ℚ) → Option (List ℚ)
  | [] => none
  | (k, cs) :: rest => if k = key then some cs else lookupGroup key rest

/-- Python `max` on a list of confidences. The empty case is unreachable in
the program (groups always hold at least one confidence); Python would
raise there, we return 0. -/
def listMax : List ℚ → ℚ
  | [] => 0
  | c :: cs => cs.foldl max c

/-- Body of the per-requirement loop of
`ProgressService._calculate_requirement_matches`. -/
def matchOne (groups : List (String × List ℚ)) (requirement : String) :
    RequirementMatch :=
  match lookupGroup (pyLower requirement) groups with
  | some confidences =>
    { requirement := requirement, detected := true,
      confidence := some (listMax confidences), count := confidences.length }
  | none =>
    { requirement := requirement, detected := false,
      confidence := none, count := 0 }

/-- Embeds `ProgressService._calculate_requirement_matches`. -/
def calculate_requirement_matches (requirements : List String)
    (detections : List Detection) : List RequirementMatch :=
  requirements.map (matchOne (detection_groups detections))

/-- Round a rational to the nearest integer, ties to even: the rounding of
Python `round` applied to the exact value. -/
def rndHalfEven (q : ℚ) : ℤ :=
  if q - ⌊q⌋ < 1 / 2 then ⌊q⌋
  else if 1 / 2 < q - ⌊q⌋ then ⌊q⌋ + 1
  else if ⌊q⌋ % 2 = 0 then ⌊q⌋ else ⌊q⌋ + 1

/-- Python `round(q, ndigits)` on the exact rational value. -/
def pyRound (q : ℚ) (ndigits : ℕ) : ℚ :=
  (rndHalfEven (q * (10 : ℚ) ^ ndigits) : ℚ) / (10 : ℚ) ^ ndigits

/-- Embeds `ProgressService._calculate_completion_percentage`. -/
def calculate_completion_percentage
    (requirement_matches : List RequirementMatch) : ℚ :=
  if requirement_matches.isEmpty then 0
  else
    let detected_count := (requirement_matches.filter (fun m => m.detected)).length
    let total_count := requirement_matches.length
    pyRound (((detected_count : ℚ) / (total_count : ℚ)) * 100) 2

/-- Embeds `ProgressService._generate_detection_summary`. Python's
`sorted(list(set(names)))` is modelled as sorting the duplicate-free list
of names (the set's iteration order is irrelevant after sorting). -/
def generate_detection_summary (detections : List Detection) :
    DetectionSummary :=
  if detections.isEmpty then
    { total_objects_detected := 0, unique_objects := [], average_confidence := 0 }
  else
    let unique_objects := (detections.map (fun d => d.object_name)).dedup
    let total_confidence := (detections.map (fun d => d.confidence)).sum
    let average_confidence := pyRound (total_confidence / (detections.length : ℚ)) 3
    { total_objects_detected := detections.length,
      unique_objects := unique_objects.insertionSort (· ≤ ·),
      average_confidence := average_confidence }

/-- Project record as read back from the database: id, requirement names in
insertion order, detection records. -/
structure Project where
  id : String
  requirements : List String
  detections : List Detection

/-- The pure body of `ProgressService.calculate_project_progress` after the
project has been fetched: the early return when the project has no
requirements, otherwise matches, percentage and summary. -/
def computeProgress (project_id : String) (requirements : List String)
    (detections : List Detection) : ProgressResponse :=
  if requirements.isEmpty then
    { project_id := project_id, completion_percentage := 0,
      requirement_matches := [],
      detection_summary :=
        { total_objects_detected := 0, unique_objects := [],
          average_confidence := 0 } }
  else
    let requirement_matches := calculate_requirement_matches requirements detections
    { project_id := project_id,
      completion_percentage := calculate_completion_percentage requirement_matches,
      requirement_matches := requirement_matches,
      detection_summary := generate_detection_summary detections }

/-- Embeds `ProgressService.calculate_project_progress` with the database modelled
as a lookup function: `None` when the project id is not stored. -/
def calculate_project_progress (db : String → Option Project)
    (project_id : String) : Option ProgressResponse :=
  match db project_id with
  | none => none
  | some project => some (computeProgress project_id project.requirements project.detections)

/-- Outcome of the HTTP handler: a response body or an HTTP error status. -/
inductive ApiResult where
  | ok : ProgressResponse → ApiResult
  | httpError : ℕ → ApiResult
deriving DecidableEq

/-- Embeds the `get_project_progress` route (`app/api/progress.py`): maps the
service's `None` to a 404 error. -/
def get_project_progress (db : String → Option Project)
    (project_id : String) : ApiResult :=
  match calculate_project_progress db project_id with
  | none => ApiResult.httpError 404
  | some progress_data => ApiResult.ok progress_data

/-- The confidences of the detections whose lowercased name equals `key`,
in input order: the pure characterisation of one group of
`detection_groups`. -/
def confsOf (detections : List Detection) (key : String) : List ℚ :=
  (detections.filter (fun d => pyLower d.object_name = key)).map
    (fun d => d.confidence)

/-- The aggregated per-name view used by the matcher: max confidence and
count for a lowercased name, if any detection carries it. -/
def aggView (detections : List Detection) (key : String) : Option (ℚ × ℕ) :=
  (lookupGroup key (detection_groups detections)).map
    (fun cs => (listMax cs, cs.length))

/-- Modelled from the spec: the synonym table as the specification lists it
(§4.2) — the seven groups, without the code's extra singleton
`window` entry. Used to compare the code's table against the spec's. -/
def specSynGroups : List (List String) :=
  [["couch", "sofa"], ["tv", "television"], ["table", "dining table"],
   ["chair", "seat"], ["bed", "bedroom"], ["lamp", "light"],
   ["fan", "ceiling fan"]]

/-- Modelled from the spec: round half-up to the nearest integer, the
rounding mode §4.5 claims for the completion percentage. -/
def rndHalfUp (q : ℚ) : ℤ := ⌊q + 1 / 2⌋

/-- Modelled from the spec: `round(q, ndigits)` with half-up rounding. -/
def specRoundHalfUp (q : ℚ) (ndigits : ℕ) : ℚ :=
  (rndHalfUp (q * (10 : ℚ) ^ ndigits) : ℚ) / (10 : ℚ) ^ ndigits

/-! ### Supporting lemmas -/

theorem lookupGroup_groupInsert (g : List (String × List ℚ)) (k key : String)
    (c : ℚ) :
    lookupGroup key (groupInsert g k c) =
      if k = key then
        match lookupGroup key g with
        | some cs => some (cs ++ [c])
        | none => some [c]
      else lookupGroup key g := by
  induction g with
  | nil =>
    by_cases h : k = key <;> simp [groupInsert, lookupGroup, h]
  | cons p rest ih =>
    obtain ⟨k1, cs1⟩ := p
    by_cases hk1k : k1 = k
    · subst hk1k
      by_cases hkey : k1 = key
      · subst hkey
        simp [groupInsert, lookupGroup]
      · simp [groupInsert, lookupGroup, hkey]
    · by_cases hkey : k1 = key
      · subst hkey
        have hne : ¬k = k1 := fun h => hk1k h.symm
        simp [groupInsert, lookupGroup, hk1k, hne]
      · simp [groupInsert, lookupGroup, hk1k, hkey, ih]

theorem confsOf_cons (d : Detection) (ds : List Detection) (key : String) :
    confsOf (d :: ds) key =
      if pyLower d.object_name = key then d.confidence :: confsOf ds key
      else confsOf ds key := by
  by_cases h : pyLower d.object_name = key <;> simp [confsOf, h]

theorem lookupGroup_foldl (ds : List Detection) (g : List (String × List ℚ))
    (key : String) :
    lookupGroup key
        (ds.foldl (fun acc d => groupInsert acc (pyLower d.object_name) d.confidence) g) =
      match lookupGroup key g with
      | some cs => some (cs ++ confsOf ds key)
      | none => if confsOf ds key = [] then none else some (confsOf ds key) := by
  induction ds generalizing g with
  | nil =>
    cases h : lookupGroup key g <;> simp [confsOf, h]
  | cons d ds ih =>
    rw [List.foldl_cons, ih, lookupGroup_groupInsert, confsOf_cons]
    by_cases hk : pyLower d.object_name = key
    · cases h : lookupGroup key g <;> simp [hk, h]
    · cases h : lookupGroup key g <;> simp [hk, h]

/-- The dictionary built by the grouping loop holds, at each lowercased
name, exactly the confidences of the detections carrying that name. -/
theorem lookupGroup_detection_groups (ds : List Detection) (key : String) :
    lookupGroup key (detection_groups ds) =
      if confsOf ds key = [] then none else some (confsOf ds key) := by
  have h := lookupGroup_foldl ds [] key
  simpa [detection_groups, lookupGroup] using h

/-- Pure characterisation of the per-requirement loop: a requirement is
detected exactly when some detection's lowercased name equals the
lowercased requirement, with max confidence and count over those
detections. -/
theorem matchOne_eq (ds : List Detection) (r : String) :
    matchOne (detection_groups ds) r =
      if confsOf ds (pyLower r) = [] then
        { requirement := r, detected := false, confidence := none, count := 0 }
      else
        { requirement := r, detected := true,
          confidence := some (listMax (confsOf ds (pyLower r))),
          count := (confsOf ds (pyLower r)).length } := by
  unfold matchOne
  rw [lookupGroup_detection_groups]
  by_cases h : confsOf ds (pyLower r) = [] <;> simp [h]

theorem foldl_max_init_le (l : List ℚ) (a : ℚ) : a ≤ l.foldl max a := by
  induction l generalizing a with
  | nil => exact le_refl a
  | cons b t ih => exact le_trans (le_max_left a b) (ih (max a b))

theorem mem_le_foldl_max (l : List ℚ) (a x : ℚ) (hx : x ∈ l) :
    x ≤ l.foldl max a := by
  induction l generalizing a with
  | nil => cases hx
  | cons b t ih =>
    rw [List.foldl_cons]
    rcases List.mem_cons.mp hx with rfl | hx
    · exact le_trans (le_max_right a x) (foldl_max_init_le t (max a x))
    · exact ih (max a b) hx

theorem foldl_max_mem (l : List ℚ) (a : ℚ) :
    l.foldl max a = a ∨ l.foldl max a ∈ l := by
  induction l generalizing a with
  | nil => exact Or.inl rfl
  | cons b t ih =>
    rcases ih (max a b) with h | h
    · rcases max_choice a b with hm | hm
      · exact Or.inl (h.trans hm)
      · exact Or.inr (List.mem_cons.mpr (Or.inl (h.trans hm)))
    · exact Or.inr (List.mem_cons.mpr (Or.inr h))

theorem le_listMax (l : List ℚ) (x : ℚ) (hx : x ∈ l) : x ≤ listMax l := by
  cases l with
  | nil => cases hx
  | cons c cs =>
    rcases List.mem_cons.mp hx with rfl | hx
    · exact foldl_max_init_le cs x
    · exact mem_le_foldl_max cs c x hx

theorem listMax_mem (l : List ℚ) (h : l ≠ []) : listMax l ∈ l := by
  cases l with
  | nil => exact absurd rfl h
  | cons c cs =>
    show cs.foldl max c ∈ c :: cs
    rcases foldl_max_mem cs c with hm | hm
    · rw [hm]; exact List.mem_cons_self c cs
    · exact List.mem_cons.mpr (Or.inr hm)

theorem listMax_perm {l1 l2 : List ℚ} (h : l1.Perm l2) :
    listMax l1 = listMax l2 := by
  cases l1 with
  | nil => rw [h.nil_eq.symm]
  | cons c cs =>
    have h2 : l2 ≠ [] := by
      intro hnil
      exact List.cons_ne_nil c cs (hnil ▸ h).eq_nil
    apply le_antisymm
    · exact le_listMax l2 _ (h.mem_iff.mp (listMax_mem (c :: cs) (List.cons_ne_nil c cs)))
    · exact le_listMax (c :: cs) _ (h.mem_iff.mpr (listMax_mem l2 h2))

theorem confsOf_perm {ds1 ds2 : List Detection} (h : ds1.Perm ds2)
    (key : String) : (confsOf ds1 key).Perm (confsOf ds2 key) :=
  (h.filter _).map _

theorem aggView_perm {ds1 ds2 : List Detection} (h : ds1.Perm ds2)
    (key : String) : aggView ds1 key = aggView ds2 key := by
  have hp := confsOf_perm h key
  unfold aggView
  rw [lookupGroup_detection_groups, lookupGroup_detection_groups]
  by_cases h1 : confsOf ds1 key = []
  · rw [h1] at hp
    rw [h1, hp.nil_eq.symm]
  · have h2 : ¬confsOf ds2 key = [] := by
      intro hnil
      exact h1 (hnil ▸ hp).eq_nil
    rw [if_neg h1, if_neg h2]
    show some (listMax (confsOf ds1 key), (confsOf ds1 key).length) =
      some (listMax (confsOf ds2 key), (confsOf ds2 key).length)
    rw [listMax_perm hp, hp.length_eq]

theorem matchOne_perm {ds1 ds2 : List Detection} (h : ds1.Perm ds2)
    (r : String) :
    matchOne (detection_groups ds1) r = matchOne (detection_groups ds2) r := by
  have hp := confsOf_perm h (pyLower r)
  rw [matchOne_eq, matchOne_eq]
  by_cases h1 : confsOf ds1 (pyLower r) = []
  · rw [h1] at hp
    rw [h1, hp.nil_eq.symm]
  · have h2 : ¬confsOf ds2 (pyLower r) = [] := by
      intro hnil
      exact h1 (hnil ▸ hp).eq_nil
    rw [if_neg h1, if_neg h2, listMax_perm hp, hp.length_eq]

theorem calculate_requirement_matches_perm (reqs : List String)
    {ds1 ds2 : List Detection} (h : ds1.Perm ds2) :
    calculate_requirement_matches reqs ds1 =
      calculate_requirement_matches reqs ds2 := by
  unfold calculate_requirement_matches
  exact List.map_congr_left (fun r _ => matchOne_perm h r)

theorem generate_detection_summary_perm {ds1 ds2 : List Detection}
    (h : ds1.Perm ds2) :
    generate_detection_summary ds1 = generate_detection_summary ds2 := by
  unfold generate_detection_summary
  have hemp : ds1.isEmpty = ds2.isEmpty := by
    cases ds1 with
    | nil => rw [h.nil_eq.symm]
    | cons d t =>
      cases ds2 with
      | nil => exact absurd h.symm.nil_eq (List.cons_ne_nil d t).symm
      | cons d2 t2 => rfl
  rw [hemp]
  by_cases h2 : ds2.isEmpty
  · simp only [h2, if_pos]
  · simp only [h2, if_neg]
    have hnames : (ds1.map (fun d => d.object_name)).Perm
        (ds2.map (fun d => d.object_name)) := h.map _
    have hdedup := hnames.dedup
    have hsort : ((ds1.map (fun d => d.object_name)).dedup.insertionSort (· ≤ ·)) =
        ((ds2.map (fun d => d.object_name)).dedup.insertionSort (· ≤ ·)) := by
      have hperm : ((ds1.map (fun d => d.object_name)).dedup.insertionSort (· ≤ ·)).Perm
          ((ds2.map (fun d => d.object_name)).dedup.insertionSort (· ≤ ·)) :=
        ((List.perm_insertionSort _ _).trans hdedup).trans
          (List.perm_insertionSort _ _).symm
      have hs1 : List.Sorted ((· ≤ ·) : String → String → Prop)
          ((ds1.map (fun d => d.object_name)).dedup.insertionSort (· ≤ ·)) :=
        List.sorted_insertionSort _ _
      have hs2 : List.Sorted ((· ≤ ·) : String → String → Prop)
          ((ds2.map (fun d => d.object_name)).dedup.insertionSort (· ≤ ·)) :=
        List.sorted_insertionSort _ _
      exact List.eq_of_perm_of_sorted hperm hs1 hs2
    have hsum : (ds1.map (fun d => d.confidence)).sum =
        (ds2.map (fun d => d.confidence)).sum := (h.map _).sum_eq
    rw [hsort, hsum, h.length_eq]

theorem rndHalfEven_nonneg {q : ℚ} (h : 0 ≤ q) : 0 ≤ rndHalfEven q := by
  have hf : (0 : ℤ) ≤ ⌊q⌋ := Int.floor_nonneg.mpr h
  unfold rndHalfEven
  split_ifs <;> omega

theorem rndHalfEven_le {q : ℚ} {m : ℤ} (h : q ≤ (m : ℚ)) :
    rndHalfEven q ≤ m := by
  have hf : ⌊q⌋ ≤ m := by
    have hm := Int.floor_mono h
    rwa [Int.floor_intCast] at hm
  have hfl : (⌊q⌋ : ℚ) ≤ q := Int.floor_le q
  unfold rndHalfEven
  split_ifs with h1 h2 h3
  · exact hf
  · have hlt : (⌊q⌋ : ℚ) < q := by linarith
    have hzlt : ⌊q⌋ < m := by
      have hc : (⌊q⌋ : ℚ) < (m : ℚ) := lt_of_lt_of_le hlt h
      exact_mod_cast hc
    omega
  · exact hf
  · have hlt : (⌊q⌋ : ℚ) < q := by
      have hge : 1 / 2 ≤ q - ⌊q⌋ := le_of_not_lt h1
      linarith
    have hzlt : ⌊q⌋ < m := by
      have hc : (⌊q⌋ : ℚ) < (m : ℚ) := lt_of_lt_of_le hlt h
      exact_mod_cast hc
    omega

theorem pyRound_nonneg {q : ℚ} (n : ℕ) (h : 0 ≤ q) : 0 ≤ pyRound q n := by
  unfold pyRound
  apply div_nonneg
  · have hr := rndHalfEven_nonneg (mul_nonneg h (by positivity : (0:ℚ) ≤ 10 ^ n))
    exact_mod_cast hr
  · positivity

theorem pyRound_le {q : ℚ} (n : ℕ) {M : ℕ} (h : q ≤ (M : ℚ)) :
    pyRound q n ≤ (M : ℚ) := by
  unfold pyRound
  rw [div_le_iff₀ (by positivity : (0:ℚ) < 10 ^ n)]
  have hq : q * 10 ^ n ≤ (((M : ℤ) * 10 ^ n : ℤ) : ℚ) := by
    push_cast
    have hpow : (0:ℚ) ≤ 10 ^ n := by positivity
    nlinarith
  have hr := rndHalfEven_le hq
  have hc : ((rndHalfEven (q * 10 ^ n) : ℤ) : ℚ) ≤ (((M : ℤ) * 10 ^ n : ℤ) : ℚ) := by
    exact_mod_cast hr
  push_cast at hc ⊢
  linarith

theorem mem_confsOf {ds : List Detection} {key : String} {c : ℚ}
    (hc : c ∈ confsOf ds key) : ∃ d ∈ ds, d.confidence = c := by
  unfold confsOf at hc
  obtain ⟨d, hd, rfl⟩ := List.mem_map.mp hc
  exact ⟨d, (List.mem_filter.mp hd).1, rfl⟩

theorem confsOf_eq_nil_iff (ds : List Detection) (key : String) :
    confsOf ds key = [] ↔ ∀ d ∈ ds, ¬pyLower d.object_name = key := by
  unfold confsOf
  simp [List.filter_eq_nil_iff]

theorem isSubList_nil_left (l : List Char) : isSubList [] l = true := by
  induction l with
  | nil => rfl
  | cons c rest ih => simp [isSubList, isPre]

/-! ### Claim theorems -/

/-- C1 (counterexample): with requirements `["sofa"]` and detections
`[("couch", 0.8)]`, `computeProgress` reports the sofa requirement as NOT
detected (confidence absent, count 0); the claimed synonym match
(detected=true, confidence=0.8, count=1) does not happen. -/
theorem C1_counterexample :
    (computeProgress "p1" ["sofa"]
        [{ object_name := "couch", confidence := 4 / 5 }]).requirement_matches =
      [{ requirement := "sofa", detected := false, confidence := none, count := 0 }] ∧
    (computeProgress "p1" ["sofa"]
        [{ object_name := "couch", confidence := 4 / 5 }]).requirement_matches ≠
      [{ requirement := "sofa", detected := true, confidence := some (4 / 5), count := 1 }] := by
  exact ⟨by decide, by decide⟩

/-- C1 (amended): in the progress pipeline a requirement is detected only
when some detection's lowercased name equals the lowercased requirement
exactly — the synonym rules of `_objects_match` play no part — so with
requirements `["sofa"]` and detections `[("couch", 0.8)]` the sofa match
has detected=false, no confidence, count 0. -/
theorem C1_progress_matching_is_exact :
    (∀ (reqs : List String) (ds : List Detection),
      calculate_requirement_matches reqs ds = reqs.map (fun r =>
        if confsOf ds (pyLower r) = [] then
          { requirement := r, detected := false, confidence := none, count := 0 }
        else
          { requirement := r, detected := true,
            confidence := some (listMax (confsOf ds (pyLower r))),
            count := (confsOf ds (pyLower r)).length })) ∧
    (computeProgress "p1" ["sofa"]
        [{ object_name := "couch", confidence := 4 / 5 }]).requirement_matches =
      [{ requirement := "sofa", detected := false, confidence := none, count := 0 }] := by
  constructor
  · intro reqs ds
    unfold calculate_requirement_matches
    exact List.map_congr_left (fun r _ => matchOne_eq ds r)
  · decide

/-- C2 (counterexample): with an empty requirement list and one detection,
the returned DetectionSummary is hardcoded to zeros — its
`total_objects_detected` is 0 even though the standalone summary of the
same detections reports 1. -/
theorem C2_counterexample :
    (computeProgress "p1" []
        [{ object_name := "chair", confidence := 1 }]).detection_summary.total_objects_detected = 0 ∧
    (generate_detection_summary
        [{ object_name := "chair", confidence := 1 }]).total_objects_detected = 1 ∧
    (0 : ℕ) ≠ 1 :=
  ⟨rfl, rfl, by decide⟩

/-- C2 (amended): when the requirement list is empty, `computeProgress`
returns completion 0.0, an empty match list, and a DetectionSummary fixed
to zero values (total 0, no unique objects, average 0.0) regardless of the
detections — the detections are not summarized on this path. -/
theorem C2_empty_requirements (pid : String) (ds : List Detection) :
    computeProgress pid [] ds =
      { project_id := pid, completion_percentage := 0,
        requirement_matches := [],
        detection_summary :=
          { total_objects_detected := 0, unique_objects := [],
            average_confidence := 0 } } := rfl

/-- C5 (counterexample): `"book"` is a non-empty name outside every
synonym group, yet `_objects_match("", "book")` returns true — Python's
`in` treats the empty string as a substring of everything, so the
substring step fires. -/
theorem C5_counterexample :
    objects_match "" "book" = true ∧ ("book" : String) ≠ "" ∧
    (synonyms.all fun g => decide (("book" : String) ∉ g.2)) = true :=
  ⟨by decide, by decide, by decide⟩

/-- C5 (amended): the substring step uses plain containment, which the
empty string always satisfies, so `_objects_match` returns true whenever
either argument is the empty string. -/
theorem C5_empty_string_always_matches (x : String) :
    objects_match "" x = true ∧ objects_match x "" = true := by
  have hempty : ∀ s : String, pyIn "" s = true := by
    intro s
    show isSubList ("" : String).data s.data = true
    exact isSubList_nil_left s.data
  constructor
  · unfold objects_match
    split_ifs with h1 h2 h3
    · rfl
    · rfl
    · rfl
    · exact absurd (by rw [hempty x, Bool.or_true]) h3
  · unfold objects_match
    split_ifs with h1 h2 h3
    · rfl
    · rfl
    · rfl
    · exact absurd (by rw [hempty x, Bool.true_or]) h3

/-- C10: when the project id has no stored Project record,
`calculate_project_progress` returns `None` without computing anything,
and the API route maps that `None` to an HTTP 404 error. -/
theorem C10_project_not_found (db : String → Option Project) (pid : String)
    (h : db pid = none) :
    calculate_project_progress db pid = none ∧
    get_project_progress db pid = ApiResult.httpError 404 := by
  have h1 : calculate_project_progress db pid = none := by
    unfold calculate_project_progress
    rw [h]
  refine ⟨h1, ?_⟩
  unfold get_project_progress
  rw [h1]

/-- C3 (counterexample): the progress pipeline never strips whitespace, so
the requirement `" Chair "` is NOT matched by a detection named `"chair"`;
had the requirement been trimmed and lowercased as claimed it would have
become exactly `"chair"`. -/
theorem C3_counterexample :
    calculate_requirement_matches [" Chair "]
        [{ object_name := "chair", confidence := 9 / 10 }] =
      [{ requirement := " Chair ", detected := false, confidence := none, count := 0 }] ∧
    pyStrip (pyLower " Chair ") = "chair" :=
  ⟨by decide, by decide⟩

/-- C3 (amended): in the progress matching pipeline names are only
lowercased, never trimmed, before comparison: a requirement is detected
exactly when some detection's lowercased name equals the lowercased
requirement (so `"CHAIR"` is matched by `"chair"`, but `" Chair "` is
not); lowercasing never fails and maps the empty string to itself. -/
theorem C3_lowercase_without_trim :
    pyLower "" = "" ∧
    (∀ (r : String) (ds : List Detection),
      (matchOne (detection_groups ds) r).detected =
        ds.any (fun d => pyLower d.object_name = pyLower r)) ∧
    (calculate_requirement_matches ["CHAIR"]
        [{ object_name := "chair", confidence := 9 / 10 }]).map (fun m => m.detected) =
      [true] := by
  refine ⟨by decide, ?_, by decide⟩
  intro r ds
  rw [matchOne_eq]
  by_cases h : confsOf ds (pyLower r) = []
  · rw [if_pos h]
    have hall := (confsOf_eq_nil_iff ds (pyLower r)).mp h
    show false = ds.any (fun d => pyLower d.object_name = pyLower r)
    symm
    rw [List.any_eq_false]
    intro d hd
    simpa using hall d hd
  · rw [if_neg h]
    show true = ds.any (fun d => pyLower d.object_name = pyLower r)
    symm
    rw [List.any_eq_true]
    obtain ⟨d, hd, hkey⟩ : ∃ d ∈ ds, pyLower d.object_name = pyLower r := by
      by_contra hno
      push_neg at hno
      exact h ((confsOf_eq_nil_iff ds (pyLower r)).mpr hno)
    exact ⟨d, hd, by simpa using hkey⟩

/-- C4 (counterexample): with 32 requirements of which exactly 1 is
detected, the code computes `round(3.125, 2) = 3.12` (Python rounds ties
to even), while the claimed half-up rounding would give `3.13`. -/
theorem C4_counterexample :
    calculate_completion_percentage
        ({ requirement := "a", detected := true, confidence := some 1, count := 1 } ::
          List.replicate 31
            { requirement := "b", detected := false, confidence := none, count := 0 }) =
      312 / 100 ∧
    specRoundHalfUp (100 * ((1 : ℚ) / 32)) 2 = 313 / 100 ∧
    ((312 : ℚ) / 100) ≠ 313 / 100 := by
  have hfloor : ⌊(625 : ℚ) / 2⌋ = 312 := by
    rw [Int.floor_eq_iff]
    constructor <;> norm_num
  have hrnd : rndHalfEven ((625 : ℚ) / 2) = 312 := by
    unfold rndHalfEven
    rw [hfloor]
    rw [if_neg (by norm_num), if_neg (by norm_num), if_pos (by decide)]
  refine ⟨?_, ?_, by norm_num⟩
  · have hfilter :
        ((({ requirement := "a", detected := true, confidence := some 1, count := 1 } ::
          List.replicate 31
            { requirement := "b", detected := false, confidence := none, count := 0 }) :
          List RequirementMatch).filter (fun m => m.detected)).length = 1 := rfl
    have hlen :
        (({ requirement := "a", detected := true, confidence := some 1, count := 1 } ::
          List.replicate 31
            { requirement := "b", detected := false, confidence := none, count := 0 }) :
          List RequirementMatch).length = 32 := rfl
    unfold calculate_completion_percentage
    rw [if_neg (by decide), hfilter, hlen]
    have harg : (((1 : ℕ) : ℚ) / ((32 : ℕ) : ℚ)) * 100 * 10 ^ 2 = 625 / 2 := by
      norm_num
    unfold pyRound
    simp only [harg, hrnd]
    norm_num
  · unfold specRoundHalfUp rndHalfUp
    rw [show 100 * ((1 : ℚ) / 32) * 10 ^ 2 + 1 / 2 = ((313 : ℤ) : ℚ) by norm_num,
      Int.floor_intCast]
    norm_num

/-- C4 (amended): the completion percentage equals
`round(100 * detectedCount / totalCount, 2)` with Python's rounding of
ties to even (banker's rounding), is `0.0` for an empty match list, and
always lies in `[0, 100]`. -/
theorem C4_percentage_round_half_even :
    (∀ ms : List RequirementMatch,
      calculate_completion_percentage ms =
        if ms.isEmpty then 0
        else pyRound (100 * (((ms.filter (fun m => m.detected)).length : ℚ) /
          (ms.length : ℚ))) 2) ∧
    (∀ ms : List RequirementMatch,
      0 ≤ calculate_completion_percentage ms ∧
        calculate_completion_percentage ms ≤ 100) := by
  have hval : ∀ ms : List RequirementMatch,
      calculate_completion_percentage ms =
        if ms.isEmpty then 0
        else pyRound (100 * (((ms.filter (fun m => m.detected)).length : ℚ) /
          (ms.length : ℚ))) 2 := by
    intro ms
    unfold calculate_completion_percentage
    by_cases h : ms.isEmpty
    · rw [if_pos h, if_pos h]
    · rw [if_neg h, if_neg h, mul_comm]
  refine ⟨hval, ?_⟩
  intro ms
  rw [hval ms]
  by_cases h : ms.isEmpty
  · rw [if_pos h]
    exact ⟨le_refl 0, by norm_num⟩
  · rw [if_neg h]
    have hpos : 0 < ms.length := by
      cases ms with
      | nil => simp [List.isEmpty] at h
      | cons m t => simp
    have hle : (ms.filter (fun m => m.detected)).length ≤ ms.length :=
      List.length_filter_le _ ms
    have hq0 : 0 ≤ 100 * (((ms.filter (fun m => m.detected)).length : ℚ) /
        (ms.length : ℚ)) := by
      apply mul_nonneg (by norm_num)
      apply div_nonneg (by positivity)
      positivity
    have hq100 : 100 * (((ms.filter (fun m => m.detected)).length : ℚ) /
        (ms.length : ℚ)) ≤ ((100 : ℕ) : ℚ) := by
      have hdiv : (((ms.filter (fun m => m.detected)).length : ℚ) /
          (ms.length : ℚ)) ≤ 1 := by
        rw [div_le_one (by exact_mod_cast hpos)]
        exact_mod_cast hle
      push_cast
      nlinarith
    constructor
    · exact pyRound_nonneg 2 hq0
    · have := pyRound_le 2 hq100
      simpa using this

/-- C6: `_objects_match` returns true exactly when the names are equal, or
both lie in one of the seven synonym groups the specification lists, or
either name is a substring of the other (Python containment); it is a
total function, so unmatched inputs simply give false. The code's extra
singleton `window` entry adds nothing beyond exact equality. -/
theorem C6_objects_match_algorithm (a b : String) :
    objects_match a b = true ↔
      (a = b ∨ (∃ g ∈ specSynGroups, a ∈ g ∧ b ∈ g) ∨
        pyIn a b = true ∨ pyIn b a = true) := by
  unfold objects_match
  split_ifs with h1 h2 h3
  · exact iff_of_true rfl (Or.inl h1)
  · refine iff_of_true rfl (Or.inr (Or.inl ?_))
    rw [List.any_eq_true] at h2
    obtain ⟨g, hg, hmem⟩ := h2
    rw [decide_eq_true_eq] at hmem
    obtain ⟨ha, hb⟩ := hmem
    simp only [synonyms, List.mem_cons, List.not_mem_nil, or_false] at hg
    rcases hg with rfl|rfl|rfl|rfl|rfl|rfl|rfl|rfl|rfl|rfl|rfl|rfl|rfl <;>
      first
        | exact ⟨["couch", "sofa"], by simp [specSynGroups], ha, hb⟩
        | exact ⟨["tv", "television"], by simp [specSynGroups], ha, hb⟩
        | exact ⟨["table", "dining table"], by simp [specSynGroups], ha, hb⟩
        | exact ⟨["chair", "seat"], by simp [specSynGroups], ha, hb⟩
        | exact ⟨["bed", "bedroom"], by simp [specSynGroups], ha, hb⟩
        | exact ⟨["lamp", "light"], by simp [specSynGroups], ha, hb⟩
        | exact ⟨["fan", "ceiling fan"], by simp [specSynGroups], ha, hb⟩
        | (simp only [List.mem_singleton] at ha hb
           exact absurd (ha.trans hb.symm) h1)
  · refine iff_of_true rfl (Or.inr (Or.inr ?_))
    simp only [Bool.or_eq_true] at h3
    rcases h3 with h | h
    · exact Or.inr h
    · exact Or.inl h
  · refine iff_of_false (by simp) ?_
    rintro (h | ⟨g, hg, ha, hb⟩ | h | h)
    · exact h1 h
    · apply h2
      rw [List.any_eq_true]
      simp only [specSynGroups, List.mem_cons, List.not_mem_nil, or_false] at hg
      rcases hg with rfl|rfl|rfl|rfl|rfl|rfl|rfl <;>
        first
          | exact ⟨("sofa", ["couch", "sofa"]), by simp [synonyms],
              by rw [decide_eq_true_eq]; exact ⟨ha, hb⟩⟩
          | exact ⟨("tv", ["tv", "television"]), by simp [synonyms],
              by rw [decide_eq_true_eq]; exact ⟨ha, hb⟩⟩
          | exact ⟨("table", ["table", "dining table"]), by simp [synonyms],
              by rw [decide_eq_true_eq]; exact ⟨ha, hb⟩⟩
          | exact ⟨("chair", ["chair", "seat"]), by simp [synonyms],
              by rw [decide_eq_true_eq]; exact ⟨ha, hb⟩⟩
          | exact ⟨("bed", ["bed", "bedroom"]), by simp [synonyms],
              by rw [decide_eq_true_eq]; exact ⟨ha, hb⟩⟩
          | exact ⟨("lamp", ["lamp", "light"]), by simp [synonyms],
              by rw [decide_eq_true_eq]; exact ⟨ha, hb⟩⟩
          | exact ⟨("fan", ["fan", "ceiling fan"]), by simp [synonyms],
              by rw [decide_eq_true_eq]; exact ⟨ha, hb⟩⟩
    · exact h3 (by rw [h, Bool.or_true])
    · exact h3 (by rw [h, Bool.true_or])

/-- C7: every RequirementMatch carries the original requirement text in
input order; its confidence is present iff detected (and then lies in
[0, 1] when all detection confidences do); its count is zero iff not
detected, hence at least one when detected. -/
theorem C7_requirement_match_invariants (reqs : List String)
    (ds : List Detection)
    (hconf : ∀ d ∈ ds, 0 ≤ d.confidence ∧ d.confidence ≤ 1) :
    ((calculate_requirement_matches reqs ds).map (fun m => m.requirement) = reqs) ∧
    (∀ m ∈ calculate_requirement_matches reqs ds,
      (m.confidence.isSome ↔ m.detected = true) ∧
      (m.count = 0 ↔ m.detected = false) ∧
      (m.detected = true → 1 ≤ m.count) ∧
      (∀ c : ℚ, m.confidence = some c → 0 ≤ c ∧ c ≤ 1)) := by
  constructor
  · unfold calculate_requirement_matches
    rw [List.map_map]
    have hid : ∀ r : String,
        (matchOne (detection_groups ds) r).requirement = r := by
      intro r
      rw [matchOne_eq]
      by_cases h : confsOf ds (pyLower r) = [] <;> simp [h]
    have hcongr : reqs.map ((fun m => m.requirement) ∘ matchOne (detection_groups ds)) =
        reqs.map id := List.map_congr_left (fun r _ => hid r)
    rw [hcongr, List.map_id]
  · intro m hm
    unfold calculate_requirement_matches at hm
    obtain ⟨r, hr, rfl⟩ := List.mem_map.mp hm
    rw [matchOne_eq]
    by_cases h : confsOf ds (pyLower r) = []
    · rw [if_pos h]
      exact ⟨by simp, by simp, by simp, by simp⟩
    · rw [if_neg h]
      have hlen : 1 ≤ (confsOf ds (pyLower r)).length := by
        cases hcs : confsOf ds (pyLower r) with
        | nil => exact absurd hcs h
        | cons x xs => simp
      refine ⟨by simp, ?_, fun _ => hlen, ?_⟩
      · show (confsOf ds (pyLower r)).length = 0 ↔ (true = false)
        constructor
        · intro h0
          exact absurd hlen (by omega)
        · intro hf
          simp at hf
      · intro c hc
        have hcval : listMax (confsOf ds (pyLower r)) = c := Option.some.inj hc
        obtain ⟨d, hd, hdc⟩ := mem_confsOf (listMax_mem _ h)
        rcases hconf d hd with ⟨hd0, hd1⟩
        rw [← hcval, ← hdc]
        exact ⟨hd0, hd1⟩

/-- C7 (witness): one requirement `"chair"` and one matching detection of
confidence 1 satisfy the hypothesis, and the output preserves the
requirement text. -/
theorem C7_witness :
    (∀ d ∈ ([{ object_name := "chair", confidence := 1 }] : List Detection),
      0 ≤ d.confidence ∧ d.confidence ≤ 1) ∧
    (calculate_requirement_matches ["chair"]
        [{ object_name := "chair", confidence := 1 }]).map
      (fun m => m.requirement) = ["chair"] := by
  have h : ∀ d ∈ ([{ object_name := "chair", confidence := 1 }] : List Detection),
      0 ≤ d.confidence ∧ d.confidence ≤ 1 := by
    intro d hd
    simp only [List.mem_singleton] at hd
    subst hd
    exact ⟨zero_le_one, le_refl 1⟩
  exact ⟨h, (C7_requirement_match_invariants ["chair"] _ h).1⟩

/-- C8: the detection summary counts all detections, lists the distinct
original names sorted (lexicographically, without duplicates), and reports
the mean confidence rounded to 3 decimal places (0 for an empty input). -/
theorem C8_detection_summary (ds : List Detection) :
    (generate_detection_summary ds).total_objects_detected = ds.length ∧
    (generate_detection_summary ds).unique_objects.Sorted (· ≤ ·) ∧
    (generate_detection_summary ds).unique_objects.Nodup ∧
    (∀ n : String, n ∈ (generate_detection_summary ds).unique_objects ↔
      n ∈ ds.map (fun d => d.object_name)) ∧
    (generate_detection_summary ds).average_confidence =
      (if ds.isEmpty then 0
       else pyRound ((ds.map (fun d => d.confidence)).sum / (ds.length : ℚ)) 3) := by
  unfold generate_detection_summary
  by_cases h : ds.isEmpty
  · have hnil : ds = [] := by
      cases ds with
      | nil => rfl
      | cons d t => simp [List.isEmpty] at h
    subst hnil
    exact ⟨rfl, List.sorted_nil, List.nodup_nil, by simp, by simp⟩
  · rw [if_neg h, if_neg h]
    refine ⟨rfl, ?_, ?_, ?_, rfl⟩
    · exact List.sorted_insertionSort _ _
    · exact ((List.perm_insertionSort _ _).nodup_iff).mpr (List.nodup_dedup _)
    · intro n
      rw [(List.perm_insertionSort _ _).mem_iff, List.mem_dedup]

/-- C9: permuting the detections changes neither the aggregated per-name
(max confidence, count) view, nor the requirement matches, nor the
completion percentage, nor the detection summary. -/
theorem C9_order_independence (reqs : List String) (ds1 ds2 : List Detection)
    (h : ds1.Perm ds2) :
    (∀ key : String, aggView ds1 key = aggView ds2 key) ∧
    calculate_requirement_matches reqs ds1 = calculate_requirement_matches reqs ds2 ∧
    calculate_completion_percentage (calculate_requirement_matches reqs ds1) =
      calculate_completion_percentage (calculate_requirement_matches reqs ds2) ∧
    generate_detection_summary ds1 = generate_detection_summary ds2 := by
  have hm := calculate_requirement_matches_perm reqs h
  exact ⟨fun key => aggView_perm h key, hm, by rw [hm],
    generate_detection_summary_perm h⟩

/-- C9 (witness): swapping two detections leaves the matches and the
summary unchanged. -/
theorem C9_witness :
    ([{ object_name := "a", confidence := 1 }, { object_name := "b", confidence := 0 }] :
        List Detection).Perm
      [{ object_name := "b", confidence := 0 }, { object_name := "a", confidence := 1 }] ∧
    calculate_requirement_matches ["a"]
        [{ object_name := "a", confidence := 1 }, { object_name := "b", confidence := 0 }] =
      calculate_requirement_matches ["a"]
        [{ object_name := "b", confidence := 0 }, { object_name := "a", confidence := 1 }] ∧
    generate_detection_summary
        [{ object_name := "a", confidence := 1 }, { object_name := "b", confidence := 0 }] =
      generate_detection_summary
        [{ object_name := "b", confidence := 0 }, { object_name := "a", confidence := 1 }] := by
  have hperm : ([{ object_name := "a", confidence := 1 },
      { object_name := "b", confidence := 0 }] : List Detection).Perm
      [{ object_name := "b", confidence := 0 },
        { object_name := "a", confidence := 1 }] :=
    List.Perm.swap _ _ _
  have hall := C9_order_independence ["a"] _ _ hperm
  exact ⟨hperm, hall.2.1, hall.2.2.2⟩

/-- C10 (witness): a database holding no projects at all yields `None` and
a 404 for the id `"missing"`. -/
theorem C10_witness :
    ((fun _ => none : String → Option Project) "missing" = none) ∧
    calculate_project_progress (fun _ => none) "missing" = none ∧
    get_project_progress (fun _ => none) "missing" = ApiResult.httpError 404 := by
  refine ⟨rfl, ?_, ?_⟩
  · exact (C10_project_not_found (fun _ => none) "missing" rfl).1
  · exact (C10_project_not_found (fun _ => none) "missing" rfl).2

end SyteScan
